import Mathlib

/-!
Verification development for the font-management service of this repository.

The repository is a TypeScript CRUD application: a flat-file JSON store
(`JsonDatabase`) holding two collections, `fonts` and `fontGroups`, and a
service layer (`FontService`) that validates requests and delegates to the
store.  We give a shallow embedding of the data model and of every operation
the claims touch, translated directly from the source:

* `Font`, `FontGroup`, `DatabaseData` mirror the interfaces in the shared
  types module.  Timestamps (`Date` values) are modelled as natural numbers;
  each `new Date()` call in the source becomes an explicit timestamp
  parameter of the embedded operation, one parameter per call, in evaluation
  order.  The `uuidv4()` calls become explicit id parameters.
* `JsonDatabase` operations are read-modify-write cycles over the whole
  document; we embed each as a pure function on `DatabaseData`.  JavaScript
  `findIndex`/`splice`/`push`/`filter`/assignment-at-index become
  `List.findIdx?`/`List.eraseIdx`/append/`List.filter`/`List.set`.
* The backing file is modelled at the JSON abstract-syntax-tree level:
  `FileState` is absent, syntactically invalid, or a JSON value; `Json` is
  the AST.  `JSON.parse` failure corresponds exactly to the `invalid` state;
  a syntactically valid file yields its AST with no shape validation, as in
  the source (the parsed value is returned as-is).  Whitespace/indentation
  of `JSON.stringify(-, null, 2)` is below the resolution of this model.
* The uploads directory is a flat map from filename to byte content;
  `fs.writeFile` overwrites, `fs.unlink` removes.
-/

/-- Mirror of the shared `Font` interface: metadata record for one uploaded
TTF file.  `uploadedAt` is a timestamp modelled as a natural number. -/
structure Font where
  id : String
  name : String
  filename : String
  originalName : String
  path : String
  uploadedAt : Nat
deriving DecidableEq, Repr

/-- Mirror of the shared `FontGroup` interface: a named collection embedding
full `Font` snapshots by value. -/
structure FontGroup where
  id : String
  name : String
  fonts : List Font
  createdAt : Nat
  updatedAt : Nat
deriving DecidableEq, Repr

/-- Mirror of `DatabaseData` in the store module: the whole persisted
document, two top-level collections. -/
structure DatabaseData where
  fonts : List Font
  fontGroups : List FontGroup
deriving DecidableEq, Repr

/-- Mirror of `CreateFontGroupRequest`. -/
structure CreateFontGroupRequest where
  name : String
  fontIds : List String
deriving DecidableEq, Repr

/-- Mirror of `UpdateFontGroupRequest`. -/
structure UpdateFontGroupRequest where
  id : String
  name : String
  fontIds : List String
deriving DecidableEq, Repr

/-- The initial/empty document `{fonts: [], fontGroups: []}`. -/
def emptyDb : DatabaseData := { fonts := [], fontGroups := [] }

/-- JSON abstract syntax tree.  Models the values `JSON.parse` produces and
`JSON.stringify` consumes, with concrete formatting abstracted away. -/
inductive Json where
  | null
  | bool (b : Bool)
  | num (n : Int)
  | str (s : String)
  | arr (elems : List Json)
  | obj (fields : List (String × Json))

/-- Serialization of a `Font` record, field for field in declaration order
(timestamps serialize injectively; we model the instant as a number). -/
def encodeFont (f : Font) : Json :=
  Json.obj [("id", Json.str f.id), ("name", Json.str f.name),
    ("filename", Json.str f.filename), ("originalName", Json.str f.originalName),
    ("path", Json.str f.path), ("uploadedAt", Json.num f.uploadedAt)]

/-- Serialization of a `FontGroup` record. -/
def encodeGroup (g : FontGroup) : Json :=
  Json.obj [("id", Json.str g.id), ("name", Json.str g.name),
    ("fonts", Json.arr (g.fonts.map encodeFont)),
    ("createdAt", Json.num g.createdAt), ("updatedAt", Json.num g.updatedAt)]

/-- Serialization of the whole document, as `JSON.stringify` views it. -/
def encodeDb (d : DatabaseData) : Json :=
  Json.obj [("fonts", Json.arr (d.fonts.map encodeFont)),
    ("fontGroups", Json.arr (d.fontGroups.map encodeGroup))]

/-- State of the backing `database.json` file: missing, present but not
syntactically valid JSON, or present with JSON content `j`. -/
inductive FileState where
  | absent
  | invalid
  | valid (j : Json)

namespace JsonDatabase

/-- Embedding of `JsonDatabase.read` at the file level, including
`ensureDatabase`: an absent file is first initialized to the serialized
empty document and then read back; a file that fails `JSON.parse` is
recovered from by returning the empty document (the file is not rewritten);
a syntactically valid file has its parsed value returned unvalidated.
Returns the file state after the call together with the returned value.
Totality of this function models that `read` never throws. -/
def read (fs : FileState) : FileState × Json :=
  match fs with
  | FileState.absent => (FileState.valid (encodeDb emptyDb), encodeDb emptyDb)
  | FileState.invalid => (FileState.invalid, encodeDb emptyDb)
  | FileState.valid j => (FileState.valid j, j)

/-- Embedding of `JsonDatabase.write`: `ensureDatabase` followed by a full
overwrite of the file with the serialization of the given value. -/
def write (j : Json) (_fs : FileState) : FileState :=
  FileState.valid j

/-- Embedding of `JsonDatabase.getFontById`: linear scan by id. -/
def getFontById (id : String) (d : DatabaseData) : Option Font :=
  d.fonts.find? (fun f => f.id == id)

/-- Embedding of `JsonDatabase.getAllFonts`. -/
def getAllFonts (d : DatabaseData) : List Font :=
  d.fonts

/-- Embedding of `JsonDatabase.addFont`: append and persist. -/
def addFont (f : Font) (d : DatabaseData) : DatabaseData :=
  { d with fonts := d.fonts ++ [f] }

/-- Embedding of `JsonDatabase.deleteFont`: `findIndex` on the fonts list;
on a miss return `false` with no write; on a hit `splice` out that index,
then reassign every group's `fonts` to its filtration dropping the id, and
persist.  The returned document is the content written back (equal to the
input when no write happened). -/
def deleteFont (id : String) (d : DatabaseData) : Bool × DatabaseData :=
  match d.fonts.findIdx? (fun f => f.id == id) with
  | none => (false, d)
  | some i =>
      (true,
        { fonts := d.fonts.eraseIdx i,
          fontGroups := d.fontGroups.map
            (fun g => { g with fonts := g.fonts.filter (fun f => !(f.id == id)) }) })

/-- Embedding of `JsonDatabase.getFontGroupById`. -/
def getFontGroupById (id : String) (d : DatabaseData) : Option FontGroup :=
  d.fontGroups.find? (fun g => g.id == id)

/-- Embedding of `JsonDatabase.addFontGroup`: append and persist. -/
def addFontGroup (g : FontGroup) (d : DatabaseData) : DatabaseData :=
  { d with fontGroups := d.fontGroups ++ [g] }

/-- Embedding of `JsonDatabase.updateFontGroup`: `findIndex` by the updated
group's id; miss returns `false` with no write; hit replaces the element at
that index and persists. -/
def updateFontGroup (updatedGroup : FontGroup) (d : DatabaseData) : Bool × DatabaseData :=
  match d.fontGroups.findIdx? (fun g => g.id == updatedGroup.id) with
  | none => (false, d)
  | some i => (true, { d with fontGroups := d.fontGroups.set i updatedGroup })

/-- Embedding of `JsonDatabase.deleteFontGroup`: `findIndex` by id; miss
returns `false` with no write; hit splices the group out and persists. -/
def deleteFontGroup (id : String) (d : DatabaseData) : Bool × DatabaseData :=
  match d.fontGroups.findIdx? (fun g => g.id == id) with
  | none => (false, d)
  | some i => (true, { d with fontGroups := d.fontGroups.eraseIdx i })

end JsonDatabase

/-- The uploads directory: filenames mapped to stored byte contents.  Bytes
are modelled as lists of naturals. -/
structure UploadsDir where
  files : List (String × List Nat)
deriving DecidableEq, Repr

/-- Model of `fs.writeFile` in the uploads directory: overwrite semantics. -/
def fsWrite (filename : String) (content : List Nat) (u : UploadsDir) : UploadsDir :=
  ⟨(filename, content) :: u.files.filter (fun e => !(e.1 == filename))⟩

/-- Model of `fs.unlink` in the uploads directory. -/
def fsUnlink (filename : String) (u : UploadsDir) : UploadsDir :=
  ⟨u.files.filter (fun e => !(e.1 == filename))⟩

/-- Lookup of a stored file's bytes by filename. -/
def fsLookup (filename : String) (u : UploadsDir) : Option (List Nat) :=
  (u.files.find? (fun e => e.1 == filename)).map (fun e => e.2)

/-- Embedding of `originalName.replace(/\.ttf$/i, '')`: strip one trailing
`.ttf` extension, case-insensitively; other names are unchanged.  The match
condition holds exactly when the string has at least 4 characters and its
last 4 characters lower-case to `.ttf`, which is precisely the regex
`\.ttf$` with the `i` flag (the only characters lower-casing to `.`, `t`,
`f` are `.`, `t`/`T`, `f`/`F`). -/
def stripTtfExt (s : String) : String :=
  if (s.data.drop (s.data.length - 4)).map Char.toLower = ['.', 't', 't', 'f']
  then String.mk (s.data.take (s.data.length - 4)) else s

namespace FontService

/-- Embedding of the resolution step shared by `createFontGroup` and
`updateFontGroup`: map each requested id to its `find` over the current
fonts, then filter out the unresolved entries. -/
def resolveFonts (fontIds : List String) (allFonts : List Font) : List Font :=
  (fontIds.map (fun fid => allFonts.find? (fun f => f.id == fid))).filterMap (fun o => o)

/-- Embedding of `FontService.saveFont`.  `newId` stands for the `uuidv4()`
call and `now` for the single `new Date()` call.  Derives the storage
filename `<id>.ttf`, writes the uploaded bytes to the uploads directory,
builds the `Font` record (name is the original name with a trailing `.ttf`
stripped, path is `/uploads/<id>.ttf`), appends it to the store, and
returns it with the new store document and uploads directory. -/
def saveFont (newId : String) (content : List Nat) (originalName : String)
    (now : Nat) (d : DatabaseData) (u : UploadsDir) :
    Font × DatabaseData × UploadsDir :=
  let filename := newId ++ ".ttf"
  let font : Font :=
    { id := newId, name := stripTtfExt originalName, filename := filename,
      originalName := originalName, path := "/uploads/" ++ filename,
      uploadedAt := now }
  (font, JsonDatabase.addFont font d, fsWrite filename content u)

/-- Embedding of `FontService.deleteFont`: look the font up; on a miss
return `false` touching nothing; on a hit remove the binary from the
uploads directory (best-effort in the source; we model the successful
removal) and then delete from the store with its group cascade. -/
def deleteFont (id : String) (d : DatabaseData) (u : UploadsDir) :
    Bool × DatabaseData × UploadsDir :=
  match JsonDatabase.getFontById id d with
  | none => (false, d, u)
  | some font =>
      let u' := fsUnlink font.filename u
      let r := JsonDatabase.deleteFont id d
      (r.1, r.2, u')

/-- Embedding of `FontService.createFontGroup`.  `newId` stands for the
`uuidv4()` call; `t1` and `t2` stand for the two `new Date()` calls that
initialize `createdAt` and `updatedAt`, in evaluation order.  Rejects
(returns `none`, document untouched) when fewer than 2 ids are supplied or
when the resolved list is shorter than the request list; otherwise appends
the new group and returns it. -/
def createFontGroup (request : CreateFontGroupRequest) (newId : String)
    (t1 t2 : Nat) (d : DatabaseData) : Option FontGroup × DatabaseData :=
  if request.fontIds.length < 2 then (none, d)
  else
    let selectedFonts := resolveFonts request.fontIds (JsonDatabase.getAllFonts d)
    if selectedFonts.length ≠ request.fontIds.length then (none, d)
    else
      let fontGroup : FontGroup :=
        { id := newId, name := request.name, fonts := selectedFonts,
          createdAt := t1, updatedAt := t2 }
      (some fontGroup, JsonDatabase.addFontGroup fontGroup d)

/-- Embedding of `FontService.updateFontGroup`.  `now` stands for the single
`new Date()` call refreshing `updatedAt`.  Rejects when the group does not
exist, when fewer than 2 ids are supplied, or when resolution loses an id;
otherwise spreads the existing group with the new name, fresh snapshots and
`updatedAt := now`, and replaces it in the store by id. -/
def updateFontGroup (request : UpdateFontGroupRequest) (now : Nat)
    (d : DatabaseData) : Option FontGroup × DatabaseData :=
  match JsonDatabase.getFontGroupById request.id d with
  | none => (none, d)
  | some existingGroup =>
      if request.fontIds.length < 2 then (none, d)
      else
        let selectedFonts := resolveFonts request.fontIds (JsonDatabase.getAllFonts d)
        if selectedFonts.length ≠ request.fontIds.length then (none, d)
        else
          let updatedGroup : FontGroup :=
            { existingGroup with
              name := request.name
              fonts := selectedFonts
              updatedAt := now }
          let r := JsonDatabase.updateFontGroup updatedGroup d
          (if r.1 then some updatedGroup else none, r.2)

/-- Embedding of `FontService.deleteFontGroup`: direct delegation. -/
def deleteFontGroup (id : String) (d : DatabaseData) : Bool × DatabaseData :=
  JsonDatabase.deleteFontGroup id d

end FontService

/-- Field lookup in a JSON object, first match wins (models property access
on a parsed JSON object whose keys are unique, as `JSON.stringify` emits). -/
def jLookup (k : String) : List (String × Json) → Option Json
  | [] => none
  | (k', v) :: rest => if k' == k then some v else jLookup k rest

/-- Deserialization of a JSON string value. -/
def decodeStr : Json → Option String
  | Json.str s => some s
  | _ => none

/-- Deserialization of a serialized timestamp. -/
def decodeNat : Json → Option Nat
  | Json.num (Int.ofNat n) => some n
  | _ => none

/-- Deserialization of a `Font` object: the left inverse of `encodeFont`,
reading back exactly the fields the serializer emits. -/
def decodeFont : Json → Option Font
  | Json.obj fields => do
      let i ← jLookup "id" fields >>= decodeStr
      let n ← jLookup "name" fields >>= decodeStr
      let fn ← jLookup "filename" fields >>= decodeStr
      let orig ← jLookup "originalName" fields >>= decodeStr
      let p ← jLookup "path" fields >>= decodeStr
      let up ← jLookup "uploadedAt" fields >>= decodeNat
      pure { id := i, name := n, filename := fn, originalName := orig,
             path := p, uploadedAt := up }
  | _ => none

/-- Deserialization of a homogeneous JSON array, failing if any element
fails. -/
def decodeList {α : Type} (dec : Json → Option α) : List Json → Option (List α)
  | [] => some []
  | j :: rest => do
      let a ← dec j
      let as ← decodeList dec rest
      pure (a :: as)

/-- Deserialization of a `FontGroup` object: left inverse of `encodeGroup`. -/
def decodeGroup : Json → Option FontGroup
  | Json.obj fields => do
      let i ← jLookup "id" fields >>= decodeStr
      let n ← jLookup "name" fields >>= decodeStr
      let fsJson ← jLookup "fonts" fields
      let fonts ← match fsJson with
        | Json.arr elems => decodeList decodeFont elems
        | _ => none
      let ca ← jLookup "createdAt" fields >>= decodeNat
      let ua ← jLookup "updatedAt" fields >>= decodeNat
      pure { id := i, name := n, fonts := fonts, createdAt := ca, updatedAt := ua }
  | _ => none

/-- Deserialization of the whole document: left inverse of `encodeDb`.  Used
to express that serialization loses no content. -/
def decodeDb : Json → Option DatabaseData
  | Json.obj fields => do
      let fontsJson ← jLookup "fonts" fields
      let fonts ← match fontsJson with
        | Json.arr elems => decodeList decodeFont elems
        | _ => none
      let groupsJson ← jLookup "fontGroups" fields
      let groups ← match groupsJson with
        | Json.arr elems => decodeList decodeGroup elems
        | _ => none
      pure { fonts := fonts, fontGroups := groups }
  | _ => none

/-- A concrete stored font used by witnesses and counterexamples. -/
def fontA : Font :=
  { id := "a", name := "Alpha", filename := "a.ttf", originalName := "Alpha.ttf",
    path := "/uploads/a.ttf", uploadedAt := 1 }

/-- A second concrete stored font used by witnesses and counterexamples. -/
def fontB : Font :=
  { id := "b", name := "Beta", filename := "b.ttf", originalName := "Beta.ttf",
    path := "/uploads/b.ttf", uploadedAt := 2 }

/-- Resolution never produces more snapshots than requested ids: the
map-then-filter in the service is a `filterMap`. -/
theorem resolveFonts_length_le (fontIds : List String) (allFonts : List Font) :
    (FontService.resolveFonts fontIds allFonts).length ≤ fontIds.length := by
  have h := List.length_filterMap_le (fun o : Option Font => o)
    (fontIds.map (fun fid => allFonts.find? (fun f => f.id == fid)))
  simpa [FontService.resolveFonts] using h

/-- If some requested id resolves to no font, resolution strictly loses
length, so the service's length-equality check fails. -/
theorem resolveFonts_length_lt (fontIds : List String) (allFonts : List Font)
    (i : String) (hi : i ∈ fontIds)
    (hf : allFonts.find? (fun f => f.id == i) = none) :
    (FontService.resolveFonts fontIds allFonts).length < fontIds.length := by
  induction fontIds with
  | nil => cases hi
  | cons a t ih =>
      unfold FontService.resolveFonts at ih ⊢
      rw [List.map_cons, List.filterMap_cons]
      rcases List.mem_cons.mp hi with h | h
      · subst h
        rw [hf]
        have hle := List.length_filterMap_le (fun o : Option Font => o)
          (t.map (fun fid => allFonts.find? (fun f => f.id == fid)))
        simp only [List.length_map] at hle
        simp only [List.length_cons]
        exact Nat.lt_succ_of_le hle
      · cases hfind : allFonts.find? (fun f => f.id == a) with
        | none =>
            simp only [List.length_cons]
            exact Nat.lt_succ_of_lt (ih h)
        | some x =>
            simp only [List.length_cons]
            exact Nat.succ_lt_succ (ih h)

/-- Splicing out the index found by `findIndex` coincides with filtering the
key out, provided the keys are distinct (the uniqueness invariant of the
store). -/
theorem eraseIdx_findIdx_eq_filter {α : Type} (key : α → String) (k : String) :
    ∀ (l : List α) (i : Nat), (l.map key).Nodup →
      l.findIdx? (fun x => key x == k) = some i →
      l.eraseIdx i = l.filter (fun x => !(key x == k)) := by
  intro l
  induction l with
  | nil => intro i _ h; simp [List.findIdx?] at h
  | cons a t ih =>
      intro i hnd hfind
      rw [List.findIdx?_cons] at hfind
      rw [List.map_cons, List.nodup_cons] at hnd
      by_cases hpa : (key a == k) = true
      · rw [if_pos hpa] at hfind
        injection hfind with hi
        subst hi
        rw [List.eraseIdx_cons_zero,
          List.filter_cons_of_neg (by simp [hpa]),
          List.filter_eq_self.mpr]
        intro x hx
        have hak : key a = k := beq_iff_eq.mp hpa
        have : key x ≠ k := by
          intro hxk
          exact hnd.1 (List.mem_map.mpr ⟨x, hx, by rw [hxk, hak]⟩)
        simp [this]
      · rw [if_neg hpa] at hfind
        rw [List.findIdx?_succ] at hfind
        cases hft : t.findIdx? (fun x => key x == k) with
        | none => rw [hft] at hfind; simp at hfind
        | some j =>
            rw [hft, Option.map_some'] at hfind
            injection hfind with hi
            subst hi
            rw [List.eraseIdx_cons_succ,
              List.filter_cons_of_pos (by simp [hpa]),
              ih j hnd.2 hft]

/-- Replacing the element at the index found by `findIndex` makes the
replacement the first match thereafter (provided it matches). -/
theorem find?_set_of_findIdx? {α : Type} (p : α → Bool) :
    ∀ (l : List α) (i : Nat), l.findIdx? p = some i →
      ∀ b, p b = true → (l.set i b).find? p = some b := by
  intro l
  induction l with
  | nil => intro i h; simp [List.findIdx?] at h
  | cons a t ih =>
      intro i hfind b hpb
      rw [List.findIdx?_cons] at hfind
      by_cases hpa : p a = true
      · rw [if_pos hpa] at hfind
        injection hfind with hi
        subst hi
        rw [List.set_cons_zero]
        exact List.find?_cons_of_pos _ hpb
      · rw [if_neg hpa] at hfind
        rw [List.findIdx?_succ] at hfind
        cases hft : t.findIdx? p with
        | none => rw [hft] at hfind; simp at hfind
        | some j =>
            rw [hft, Option.map_some'] at hfind
            injection hfind with hi
            subst hi
            rw [List.set_cons_succ, List.find?_cons_of_neg _ hpa]
            exact ih j hft b hpb

/-- A successful `find` guarantees `findIndex` succeeds as well. -/
theorem findIdx?_isSome_of_find? {α : Type} (p : α → Bool) (l : List α) (a : α)
    (h : l.find? p = some a) : ∃ i, l.findIdx? p = some i := by
  cases hidx : l.findIdx? p with
  | none =>
      have hall := List.findIdx?_eq_none_iff.mp hidx
      have : l.find? p = none :=
        List.find?_eq_none.mpr (fun x hx => by simp [hall x hx])
      rw [this] at h
      cases h
  | some i => exact ⟨i, rfl⟩

/-- The index found when deleting a font is scanned over a list whose id is
absent exactly when no element's id matches. -/
theorem findIdx?_id_eq_none {α : Type} (key : α → String) (k : String)
    (l : List α) (h : k ∉ l.map key) :
    l.findIdx? (fun x => key x == k) = none :=
  List.findIdx?_eq_none_iff.mpr (fun x hx =>
    beq_eq_false_iff_ne.mpr (fun heq => h (List.mem_map.mpr ⟨x, hx, heq⟩)))

/-- Absence of an id makes the linear `find` miss. -/
theorem find?_id_eq_none {α : Type} (key : α → String) (k : String)
    (l : List α) (h : k ∉ l.map key) :
    l.find? (fun x => key x == k) = none :=
  List.find?_eq_none.mpr (fun x hx hbeq =>
    h (List.mem_map.mpr ⟨x, hx, beq_iff_eq.mp hbeq⟩))

/-- Claim C1, as stated, fails on the code: the guard counts list entries,
not distinct ids.  At the concrete store holding only `fontA`, a create
request whose font-id list is `["a", "a"]` — one distinct id — is accepted
and a group referencing a single distinct font is persisted. -/
theorem c1_distinct_ids_counterexample :
    (["a", "a"] : List String).eraseDups.length < 2 ∧
    (FontService.createFontGroup ⟨"g1", ["a", "a"]⟩ "gid" 5 5
      ⟨[fontA], []⟩).1 = some ⟨"gid", "g1", [fontA, fontA], 5, 5⟩ ∧
    (FontService.createFontGroup ⟨"g1", ["a", "a"]⟩ "gid" 5 5
      ⟨[fontA], []⟩).2.fontGroups.length = 1 := by
  decide

/-- Claim C1 (amended): for every create or update of a font group, if the
supplied font-id list has fewer than 2 entries (entries counted with
multiplicity, not distinct ids), the operation is rejected (returns no
result) and no group is created or modified. -/
theorem c1_short_fontId_list_rejected (creq : CreateFontGroupRequest)
    (ureq : UpdateFontGroupRequest) (newId : String) (t1 t2 tu : Nat)
    (d : DatabaseData) (hc : creq.fontIds.length < 2)
    (hu : ureq.fontIds.length < 2) :
    FontService.createFontGroup creq newId t1 t2 d = (none, d) ∧
    FontService.updateFontGroup ureq tu d = (none, d) := by
  constructor
  · unfold FontService.createFontGroup
    rw [if_pos hc]
  · unfold FontService.updateFontGroup
    split
    · rfl
    · rw [if_pos hu]

/-- Witness for `c1_short_fontId_list_rejected` at a concrete input. -/
theorem c1_short_fontId_list_rejected_witness :
    FontService.createFontGroup ⟨"g1", ["a"]⟩ "gid" 0 0 emptyDb = (none, emptyDb) ∧
    FontService.updateFontGroup ⟨"G", "g1", ["a"]⟩ 0 emptyDb = (none, emptyDb) :=
  c1_short_fontId_list_rejected ⟨"g1", ["a"]⟩ ⟨"G", "g1", ["a"]⟩ "gid" 0 0 0
    emptyDb (by decide) (by decide)

/-- Claim C2: a create or update request whose font-id list contains an id
not present in the current font collection is rejected with no result and
the store document is left completely unchanged. -/
theorem c2_unresolved_id_rejected (creq : CreateFontGroupRequest)
    (ureq : UpdateFontGroupRequest) (newId : String) (t1 t2 tu : Nat)
    (d : DatabaseData) (i j : String)
    (hci : i ∈ creq.fontIds) (hcm : i ∉ d.fonts.map Font.id)
    (huj : j ∈ ureq.fontIds) (hum : j ∉ d.fonts.map Font.id) :
    FontService.createFontGroup creq newId t1 t2 d = (none, d) ∧
    FontService.updateFontGroup ureq tu d = (none, d) := by
  have hlc := resolveFonts_length_lt creq.fontIds d.fonts i hci
    (find?_id_eq_none Font.id i d.fonts hcm)
  have hlu := resolveFonts_length_lt ureq.fontIds d.fonts j huj
    (find?_id_eq_none Font.id j d.fonts hum)
  constructor
  · unfold FontService.createFontGroup
    by_cases h2 : creq.fontIds.length < 2
    · rw [if_pos h2]
    · rw [if_neg h2]
      simp only [JsonDatabase.getAllFonts]
      rw [if_pos (Nat.ne_of_lt hlc)]
  · unfold FontService.updateFontGroup
    split
    · rfl
    · by_cases h2 : ureq.fontIds.length < 2
      · rw [if_pos h2]
      · rw [if_neg h2]
        simp only [JsonDatabase.getAllFonts]
        rw [if_pos (Nat.ne_of_lt hlu)]

/-- Witness for `c2_unresolved_id_rejected` at a concrete input: the id
`"zz"` resolves against no stored font. -/
theorem c2_unresolved_id_rejected_witness :
    FontService.createFontGroup ⟨"g1", ["a", "zz"]⟩ "gid" 0 0 ⟨[fontA], []⟩
      = (none, ⟨[fontA], []⟩) ∧
    FontService.updateFontGroup ⟨"G", "g1", ["zz", "a"]⟩ 0 ⟨[fontA], []⟩
      = (none, ⟨[fontA], []⟩) :=
  c2_unresolved_id_rejected ⟨"g1", ["a", "zz"]⟩ ⟨"G", "g1", ["zz", "a"]⟩
    "gid" 0 0 0 ⟨[fontA], []⟩ "zz" "zz"
    (by decide) (by decide) (by decide) (by decide)

/-- Claim C8: deleting an id that is not present returns the not-found
result `false` at both the store and the service layer, and the document
(and the uploads directory) are left unchanged, so repeating the delete is
idempotent. -/
theorem c8_delete_missing_id (id : String) (d : DatabaseData) (u : UploadsDir)
    (hf : id ∉ d.fonts.map Font.id) (hg : id ∉ d.fontGroups.map FontGroup.id) :
    JsonDatabase.deleteFont id d = (false, d) ∧
    JsonDatabase.deleteFontGroup id d = (false, d) ∧
    FontService.deleteFont id d u = (false, d, u) := by
  refine ⟨?_, ?_, ?_⟩
  · unfold JsonDatabase.deleteFont
    rw [findIdx?_id_eq_none Font.id id d.fonts hf]
  · unfold JsonDatabase.deleteFontGroup
    rw [findIdx?_id_eq_none FontGroup.id id d.fontGroups hg]
  · unfold FontService.deleteFont JsonDatabase.getFontById
    rw [find?_id_eq_none Font.id id d.fonts hf]

/-- Witness for `c8_delete_missing_id` at a concrete input. -/
theorem c8_delete_missing_id_witness :
    JsonDatabase.deleteFont "zz" ⟨[fontA], []⟩ = (false, ⟨[fontA], []⟩) ∧
    JsonDatabase.deleteFontGroup "zz" ⟨[fontA], []⟩ = (false, ⟨[fontA], []⟩) ∧
    FontService.deleteFont "zz" ⟨[fontA], []⟩ ⟨[]⟩ = (false, ⟨[fontA], []⟩, ⟨[]⟩) :=
  c8_delete_missing_id "zz" ⟨[fontA], []⟩ ⟨[]⟩ (by decide) (by decide)

/-- Claim C10: the size invariant on groups is not preserved by font
deletion.  Concretely, deleting `fontA` from a store whose only group holds
the snapshots of `fontA` and `fontB` keeps that group with a single
snapshot, and deleting `fontB` afterwards keeps it with zero; in general,
`deleteFont` never removes a group — at both layers the stored group ids
are untouched — so undersized groups stay in the store. -/
theorem c10_undersized_group_persists :
    (JsonDatabase.deleteFont "a"
        ⟨[fontA, fontB], [⟨"G", "grp", [fontA, fontB], 3, 3⟩]⟩).2
      = ⟨[fontB], [⟨"G", "grp", [fontB], 3, 3⟩]⟩ ∧
    (JsonDatabase.deleteFont "b" ⟨[fontB], [⟨"G", "grp", [fontB], 3, 3⟩]⟩).2
      = ⟨[], [⟨"G", "grp", [], 3, 3⟩]⟩ ∧
    (∀ id d, ((JsonDatabase.deleteFont id d).2.fontGroups.map FontGroup.id)
      = d.fontGroups.map FontGroup.id) ∧
    (∀ id d u, ((FontService.deleteFont id d u).2.1.fontGroups.map FontGroup.id)
      = d.fontGroups.map FontGroup.id) := by
  have hdb : ∀ id d, ((JsonDatabase.deleteFont id d).2.fontGroups.map FontGroup.id)
      = d.fontGroups.map FontGroup.id := by
    intro id d
    unfold JsonDatabase.deleteFont
    split
    · rfl
    · rw [List.map_map]
      rfl
  refine ⟨by decide, by decide, hdb, ?_⟩
  intro id d u
  unfold FontService.deleteFont
  split
  · rfl
  · exact hdb id d

/-- Stripping behaviour of the extension regex on names that end in the
lowercase extension: `<base>.ttf` becomes `<base>`. -/
theorem stripTtfExt_append_ttf (base : String) :
    stripTtfExt (base ++ ".ttf") = base := by
  unfold stripTtfExt
  rw [String.data_append]
  have hdata : (".ttf" : String).data = ['.', 't', 't', 'f'] := rfl
  rw [hdata]
  have hlen : (base.data ++ ['.', 't', 't', 'f']).length - 4 = base.data.length := by
    simp
  rw [hlen]
  have hdrop : (base.data ++ ['.', 't', 't', 'f']).drop base.data.length
      = ['.', 't', 't', 'f'] := List.drop_left _ _
  rw [hdrop, if_pos (by decide)]
  rw [List.take_left]

/-- Claim C3: deleting a font id that is present in a store with distinct
font ids succeeds and produces exactly the document in which that one font
is dropped from `fonts` and every snapshot carrying that id is dropped from
every group's `fonts`, with all other fonts, snapshots and group attributes
untouched. -/
theorem c3_deleteFont_cascade (id : String) (d : DatabaseData)
    (hnd : (d.fonts.map Font.id).Nodup) (hmem : id ∈ d.fonts.map Font.id) :
    JsonDatabase.deleteFont id d =
      (true,
        { fonts := d.fonts.filter (fun f => !(f.id == id)),
          fontGroups := d.fontGroups.map
            (fun g => { g with fonts := g.fonts.filter (fun f => !(f.id == id)) }) }) := by
  obtain ⟨f0, hf0mem, hf0id⟩ := List.mem_map.mp hmem
  cases hidx : d.fonts.findIdx? (fun f => f.id == id) with
  | none =>
      have hall := List.findIdx?_eq_none_iff.mp hidx f0 hf0mem
      rw [hf0id] at hall
      simp at hall
  | some i =>
      unfold JsonDatabase.deleteFont
      rw [hidx]
      dsimp only
      rw [eraseIdx_findIdx_eq_filter Font.id id d.fonts i hnd hidx]

/-- Witness for `c3_deleteFont_cascade`: deleting `fontA` from a two-font
store with one group removes it from the font list and from the group,
leaving `fontB` and the rest of the group intact. -/
theorem c3_deleteFont_cascade_witness :
    JsonDatabase.deleteFont "a"
        ⟨[fontA, fontB], [⟨"G", "grp", [fontA, fontB], 3, 3⟩]⟩
      = (true, ⟨[fontB], [⟨"G", "grp", [fontB], 3, 3⟩]⟩) := by
  have h := c3_deleteFont_cascade "a"
    ⟨[fontA, fontB], [⟨"G", "grp", [fontA, fontB], 3, 3⟩]⟩ (by decide) (by decide)
  rw [h]
  decide

/-- Claim C4: a valid upload with a fresh generated id yields a `Font`
record whose id collides with no previously stored font, whose storage
filename is `<id>.ttf`, whose public path is `/uploads/<id>.ttf`, whose
display name is the original filename with the `.ttf` extension stripped,
whose stored binary is byte-identical to the uploaded content, and which is
appended to the store's font list.  The freshness hypothesis models the
uniqueness of `uuidv4()`. -/
theorem c4_saveFont_correct (newId : String) (content : List Nat)
    (originalName : String) (now : Nat) (d : DatabaseData) (u : UploadsDir)
    (hfresh : newId ∉ d.fonts.map Font.id) :
    (FontService.saveFont newId content originalName now d u).1.id
      ∉ d.fonts.map Font.id ∧
    (FontService.saveFont newId content originalName now d u).1.filename
      = newId ++ ".ttf" ∧
    (FontService.saveFont newId content originalName now d u).1.path
      = "/uploads/" ++ (newId ++ ".ttf") ∧
    (∀ base, originalName = base ++ ".ttf" →
      (FontService.saveFont newId content originalName now d u).1.name = base) ∧
    fsLookup ((FontService.saveFont newId content originalName now d u).1.filename)
        (FontService.saveFont newId content originalName now d u).2.2
      = some content ∧
    (FontService.saveFont newId content originalName now d u).2.1.fonts
      = d.fonts ++ [(FontService.saveFont newId content originalName now d u).1] := by
  refine ⟨hfresh, rfl, rfl, ?_, ?_, rfl⟩
  · intro base hb
    show stripTtfExt originalName = base
    rw [hb]
    exact stripTtfExt_append_ttf base
  · show fsLookup (newId ++ ".ttf") (fsWrite (newId ++ ".ttf") content u) = some content
    unfold fsLookup fsWrite
    simp

/-- Witness for `c4_saveFont_correct` at a concrete upload. -/
theorem c4_saveFont_correct_witness :
    (FontService.saveFont "x1" [7, 8, 9] "Arial.ttf" 4 ⟨[fontA], []⟩ ⟨[]⟩).1.id
      ∉ ([fontA] : List Font).map Font.id ∧
    (FontService.saveFont "x1" [7, 8, 9] "Arial.ttf" 4 ⟨[fontA], []⟩ ⟨[]⟩).1.filename
      = "x1" ++ ".ttf" ∧
    (FontService.saveFont "x1" [7, 8, 9] "Arial.ttf" 4 ⟨[fontA], []⟩ ⟨[]⟩).1.path
      = "/uploads/" ++ ("x1" ++ ".ttf") ∧
    (∀ base, "Arial.ttf" = base ++ ".ttf" →
      (FontService.saveFont "x1" [7, 8, 9] "Arial.ttf" 4 ⟨[fontA], []⟩ ⟨[]⟩).1.name
        = base) ∧
    fsLookup ((FontService.saveFont "x1" [7, 8, 9] "Arial.ttf" 4 ⟨[fontA], []⟩ ⟨[]⟩).1.filename)
        (FontService.saveFont "x1" [7, 8, 9] "Arial.ttf" 4 ⟨[fontA], []⟩ ⟨[]⟩).2.2
      = some [7, 8, 9] ∧
    (FontService.saveFont "x1" [7, 8, 9] "Arial.ttf" 4 ⟨[fontA], []⟩ ⟨[]⟩).2.1.fonts
      = [fontA] ++ [(FontService.saveFont "x1" [7, 8, 9] "Arial.ttf" 4 ⟨[fontA], []⟩ ⟨[]⟩).1] :=
  c4_saveFont_correct "x1" [7, 8, 9] "Arial.ttf" 4 ⟨[fontA], []⟩ ⟨[]⟩ (by decide)

/-- Replacing a group whose id already occurs in the store succeeds, and the
replacement is found by a subsequent lookup under the same id. -/
theorem db_updateFontGroup_found (g' : FontGroup) (d : DatabaseData)
    (g0 : FontGroup)
    (hex : d.fontGroups.find? (fun x => x.id == g'.id) = some g0) :
    (JsonDatabase.updateFontGroup g' d).1 = true ∧
    ((JsonDatabase.updateFontGroup g' d).2).fontGroups.find?
      (fun x => x.id == g'.id) = some g' := by
  obtain ⟨i, hi⟩ := findIdx?_isSome_of_find? _ _ _ hex
  unfold JsonDatabase.updateFontGroup
  rw [hi]
  exact ⟨rfl, find?_set_of_findIdx? _ _ i hi g' (beq_self_eq_true _)⟩

/-- Claim C5: a successful `updateFontGroup` on an existing group preserves
the group's id and `createdAt`, moves `updatedAt` to the call's timestamp
(which is at least the previous `updatedAt` whenever the clock has not gone
backwards), and persists the returned group so that looking the id up in
the new document yields it. -/
theorem c5_update_preserves_identity (req : UpdateFontGroupRequest) (now : Nat)
    (d : DatabaseData) (g0 g : FontGroup) (d' : DatabaseData)
    (hex : JsonDatabase.getFontGroupById req.id d = some g0)
    (hclock : g0.updatedAt ≤ now)
    (hr : FontService.updateFontGroup req now d = (some g, d')) :
    g.id = g0.id ∧ g.createdAt = g0.createdAt ∧ g0.updatedAt ≤ g.updatedAt ∧
    JsonDatabase.getFontGroupById req.id d' = some g := by
  have hfindeq : d.fontGroups.find? (fun x => x.id == req.id) = some g0 := hex
  have hbeq :=
    @List.find?_some FontGroup (fun x => x.id == req.id) g0 d.fontGroups hfindeq
  have hgid : g0.id = req.id := beq_iff_eq.mp hbeq
  unfold FontService.updateFontGroup at hr
  rw [hex] at hr
  dsimp only at hr
  by_cases h2 : req.fontIds.length < 2
  · rw [if_pos h2] at hr
    simp at hr
  · rw [if_neg h2] at hr
    by_cases hlen : (FontService.resolveFonts req.fontIds
        (JsonDatabase.getAllFonts d)).length ≠ req.fontIds.length
    · rw [if_pos hlen] at hr
      simp at hr
    · rw [if_neg hlen] at hr
      have hex2 : d.fontGroups.find?
          (fun x => x.id == ({ g0 with
            name := req.name
            fonts := FontService.resolveFonts req.fontIds (JsonDatabase.getAllFonts d)
            updatedAt := now } : FontGroup).id) = some g0 := by
        show d.fontGroups.find? (fun x => x.id == g0.id) = some g0
        rw [hgid]
        exact hfindeq
      obtain ⟨hb, hfind⟩ := db_updateFontGroup_found _ d g0 hex2
      rw [hb] at hr
      rw [if_pos rfl] at hr
      rw [Prod.mk.injEq] at hr
      obtain ⟨h1, hd'⟩ := hr
      have hg := Option.some.inj h1
      subst hg
      refine ⟨rfl, rfl, hclock, ?_⟩
      subst hd'
      unfold JsonDatabase.getFontGroupById
      rw [← hgid]
      exact hfind

/-- Witness for `c5_update_preserves_identity` at a concrete store. -/
theorem c5_update_preserves_identity_witness :
    (⟨"G", "Updated", [fontB, fontA], 10, 11⟩ : FontGroup).id
      = (⟨"G", "grp", [fontA, fontB], 10, 10⟩ : FontGroup).id ∧
    (⟨"G", "Updated", [fontB, fontA], 10, 11⟩ : FontGroup).createdAt
      = (⟨"G", "grp", [fontA, fontB], 10, 10⟩ : FontGroup).createdAt ∧
    (⟨"G", "grp", [fontA, fontB], 10, 10⟩ : FontGroup).updatedAt
      ≤ (⟨"G", "Updated", [fontB, fontA], 10, 11⟩ : FontGroup).updatedAt ∧
    JsonDatabase.getFontGroupById "G"
        ⟨[fontA, fontB], [⟨"G", "Updated", [fontB, fontA], 10, 11⟩]⟩
      = some ⟨"G", "Updated", [fontB, fontA], 10, 11⟩ :=
  c5_update_preserves_identity ⟨"G", "Updated", ["b", "a"]⟩ 11
    ⟨[fontA, fontB], [⟨"G", "grp", [fontA, fontB], 10, 10⟩]⟩
    ⟨"G", "grp", [fontA, fontB], 10, 10⟩
    ⟨"G", "Updated", [fontB, fontA], 10, 11⟩
    ⟨[fontA, fontB], [⟨"G", "Updated", [fontB, fontA], 10, 11⟩]⟩
    (by decide) (by decide) (by decide)

/-- Claim C6, as stated, fails on the code: `createdAt` and `updatedAt` come
from two separate `new Date()` calls, so a clock tick between them yields a
successfully created group with `createdAt ≠ updatedAt`.  Concretely, with
the first timestamp read returning 0 and the second returning 1, creation
succeeds and the two fields differ. -/
theorem c6_single_instant_counterexample :
    ((FontService.createFontGroup ⟨"g1", ["a", "b"]⟩ "gid" 0 1
        ⟨[fontA, fontB], []⟩).1.map
      (fun g => g.createdAt == g.updatedAt)) = some false := by
  decide

/-- Claim C6 (amended): a successful `createFontGroup` returns a group whose
`createdAt` and `updatedAt` are the call's two consecutive timestamp reads —
hence `createdAt ≤ updatedAt` under a monotone clock, with equality exactly
when the reads coincide — and whose `fonts` is the sequence of the current
snapshots of the requested fonts in request order (all ids resolved), the
group being appended to the store. -/
theorem c6_create_group_snapshot (req : CreateFontGroupRequest)
    (newId : String) (t1 t2 : Nat) (d : DatabaseData) (g : FontGroup)
    (d' : DatabaseData) (hts : t1 ≤ t2)
    (hr : FontService.createFontGroup req newId t1 t2 d = (some g, d')) :
    g.createdAt ≤ g.updatedAt ∧
    g.fonts = req.fontIds.filterMap (fun i => d.fonts.find? (fun f => f.id == i)) ∧
    g.fonts.length = req.fontIds.length ∧
    d'.fontGroups = d.fontGroups ++ [g] := by
  unfold FontService.createFontGroup at hr
  by_cases h2 : req.fontIds.length < 2
  · rw [if_pos h2] at hr
    simp at hr
  · rw [if_neg h2] at hr
    dsimp only at hr
    by_cases hlen : (FontService.resolveFonts req.fontIds
        (JsonDatabase.getAllFonts d)).length ≠ req.fontIds.length
    · rw [if_pos hlen] at hr
      simp at hr
    · rw [if_neg hlen] at hr
      rw [Prod.mk.injEq] at hr
      obtain ⟨h1, hd'⟩ := hr
      have hg := Option.some.inj h1
      subst hg
      refine ⟨hts, ?_, not_ne_iff.mp hlen, ?_⟩
      · show FontService.resolveFonts req.fontIds (JsonDatabase.getAllFonts d) = _
        unfold FontService.resolveFonts JsonDatabase.getAllFonts
        rw [List.filterMap_map]
        rfl
      · rw [← hd']
        rfl

/-- Witness for `c6_create_group_snapshot` at a concrete store. -/
theorem c6_create_group_snapshot_witness :
    (⟨"gid", "g1", [fontA, fontB], 0, 1⟩ : FontGroup).createdAt
      ≤ (⟨"gid", "g1", [fontA, fontB], 0, 1⟩ : FontGroup).updatedAt ∧
    (⟨"gid", "g1", [fontA, fontB], 0, 1⟩ : FontGroup).fonts
      = (["a", "b"] : List String).filterMap
          (fun i => ([fontA, fontB] : List Font).find? (fun f => f.id == i)) ∧
    (⟨"gid", "g1", [fontA, fontB], 0, 1⟩ : FontGroup).fonts.length
      = (["a", "b"] : List String).length ∧
    ([⟨"gid", "g1", [fontA, fontB], 0, 1⟩] : List FontGroup)
      = [] ++ [⟨"gid", "g1", [fontA, fontB], 0, 1⟩] :=
  c6_create_group_snapshot ⟨"g1", ["a", "b"]⟩ "gid" 0 1 ⟨[fontA, fontB], []⟩
    ⟨"gid", "g1", [fontA, fontB], 0, 1⟩
    ⟨[fontA, fontB], [⟨"gid", "g1", [fontA, fontB], 0, 1⟩]⟩
    (by decide) (by decide)

/-- Claim C7, as stated, fails on the code: `read` performs no shape
validation on a file that parses successfully.  A backing file holding the
JSON text `null` parses, so the catch branch is not taken, and `read`
returns `null` — which is not a `{fonts, fontGroups}` document (it is not
the serialization of any document). -/
theorem c7_read_full_document_counterexample :
    (JsonDatabase.read (FileState.valid Json.null)).2 = Json.null ∧
    ¬ ∃ d : DatabaseData,
      (JsonDatabase.read (FileState.valid Json.null)).2 = encodeDb d := by
  refine ⟨rfl, ?_⟩
  rintro ⟨d, h⟩
  exact Json.noConfusion h

/-- Claim C7 (amended): `read` never fails (it is total): an absent backing
file is first initialized to the serialized empty document, which is then
returned; a file that cannot be JSON-parsed yields the empty document
instead of an error; and a file holding syntactically valid JSON is
returned as parsed, without shape validation — in particular every stored
document round-trips, but non-document JSON is passed through as-is. -/
theorem c7_read_total_with_recovery :
    JsonDatabase.read FileState.absent
      = (FileState.valid (encodeDb emptyDb), encodeDb emptyDb) ∧
    JsonDatabase.read FileState.invalid = (FileState.invalid, encodeDb emptyDb) ∧
    (∀ j : Json, JsonDatabase.read (FileState.valid j) = (FileState.valid j, j)) ∧
    (∀ d : DatabaseData,
      (JsonDatabase.read (FileState.valid (encodeDb d))).2 = encodeDb d) :=
  ⟨rfl, rfl, fun _ => rfl, fun _ => rfl⟩

/-- One-field round trip for serialized timestamps. -/
theorem decodeNat_num (n : Nat) : decodeNat (Json.num n) = some n := rfl

/-- Round trip for a single serialized font record. -/
theorem decodeFont_encodeFont (f : Font) : decodeFont (encodeFont f) = some f :=
  rfl

/-- Lists of values whose element decoder inverts the element encoder are
decoded back intact. -/
theorem decodeList_map_encode {α : Type} (dec : Json → Option α)
    (enc : α → Json) (h : ∀ a, dec (enc a) = some a) :
    ∀ l : List α, decodeList dec (l.map enc) = some l := by
  intro l
  induction l with
  | nil => rfl
  | cons a t ih =>
      rw [List.map_cons]
      show ((dec (enc a)).bind fun x =>
        (decodeList dec (t.map enc)).bind fun xs => some (x :: xs)) = some (a :: t)
      rw [h a, ih]
      rfl

/-- Round trip for a single serialized group record. -/
theorem decodeGroup_encodeGroup (g : FontGroup) :
    decodeGroup (encodeGroup g) = some g := by
  unfold decodeGroup encodeGroup
  simp only [jLookup]
  simp only [show (("id" : String) == "id") = true from rfl,
    show (("id" : String) == "name") = false from rfl,
    show (("name" : String) == "name") = true from rfl,
    show (("id" : String) == "fonts") = false from rfl,
    show (("name" : String) == "fonts") = false from rfl,
    show (("fonts" : String) == "fonts") = true from rfl,
    show (("id" : String) == "createdAt") = false from rfl,
    show (("name" : String) == "createdAt") = false from rfl,
    show (("fonts" : String) == "createdAt") = false from rfl,
    show (("createdAt" : String) == "createdAt") = true from rfl,
    show (("id" : String) == "updatedAt") = false from rfl,
    show (("name" : String) == "updatedAt") = false from rfl,
    show (("fonts" : String) == "updatedAt") = false from rfl,
    show (("createdAt" : String) == "updatedAt") = false from rfl,
    show (("updatedAt" : String) == "updatedAt") = true from rfl,
    Bool.false_eq_true, if_true, if_false]
  simp only [decodeStr, Option.some_bind, Option.bind_eq_bind]
  rw [decodeList_map_encode decodeFont encodeFont decodeFont_encodeFont]
  rfl

/-- Round trip for the serialized document: `JSON.parse` applied to the
output of `JSON.stringify` recovers exactly the document that was written,
so serialization loses no content. -/
theorem decodeDb_encodeDb (d : DatabaseData) : decodeDb (encodeDb d) = some d := by
  unfold decodeDb encodeDb
  simp only [jLookup]
  simp only [show (("fonts" : String) == "fonts") = true from rfl,
    show (("fonts" : String) == "fontGroups") = false from rfl,
    show (("fontGroups" : String) == "fontGroups") = true from rfl,
    Bool.false_eq_true, if_true, if_false]
  simp only [Option.some_bind, Option.bind_eq_bind]
  rw [decodeList_map_encode decodeFont encodeFont decodeFont_encodeFont]
  simp only [Option.some_bind]
  rw [decodeList_map_encode decodeGroup encodeGroup decodeGroup_encodeGroup]
  rfl

/-- Claim C9: reading the whole document and writing it back is a no-op on
the persisted content — stated for every stored document, and more
generally for any syntactically valid JSON content, since `read` returns
the parsed value which `write` re-serializes unchanged at the
JSON-structure level; moreover re-serialization is stable in that decoding
a serialized document recovers it exactly. -/
theorem c9_write_read_noop :
    (∀ d : DatabaseData,
      JsonDatabase.write (JsonDatabase.read (FileState.valid (encodeDb d))).2
          (JsonDatabase.read (FileState.valid (encodeDb d))).1
        = FileState.valid (encodeDb d)) ∧
    (∀ j : Json,
      JsonDatabase.write (JsonDatabase.read (FileState.valid j)).2
          (JsonDatabase.read (FileState.valid j)).1
        = FileState.valid j) ∧
    (∀ d : DatabaseData, decodeDb (encodeDb d) = some d) :=
  ⟨fun _ => rfl, fun _ => rfl, decodeDb_encodeDb⟩
